import Mathlib

/-!
Verification of `passport-cookie-session` (encrypted cookie session middleware).

The development shallowly embeds the core of the repository:
* the promise-based timeout guard (`src/unnamed/part_000`),
* the callback timeout guard (`src/src/utils/timeout.js`) as an event machine,
* the default crypto provider's wire format (`src/unnamed/part_001`,
  `src/src/utils/encryption.js`): `base64(IV[12] || TAG[16] || CIPHERTEXT)`,
* the middleware load / save paths of the current release
  (`src/unnamed/part_002`, v1.0.0 per CHANGELOG/README),
* the session-restore object assignment of the legacy flat variant
  (`src/passport-cookie-session.js`).

External collaborators that are not part of the repository's own sources
(Node's `crypto` AES-256-GCM + sha256, `JSON.parse`/`JSON.stringify`) are
modelled from the spec as structures carrying their behavioural contracts,
and concrete executable instances are provided so that every theorem can be
exercised on concrete inputs.
-/

namespace PCS

/-- A byte, as handled by Node `Buffer`s. -/
abbrev Byte := Fin 256

/-! ### Self-delimiting byte encodings

Used only to build the concrete witness instances of the abstract crypto /
codec structures; they play the role of an (injective, invertible) packing
of numbers and strings into byte sequences. -/

/-- Little-endian base-255 digits of a natural number (digit values `0..254`),
terminated by the byte `255`. -/
def natEnc (n : Nat) : List Byte :=
  if h : n < 255 then [⟨n, by omega⟩, ⟨255, by omega⟩]
  else ⟨n % 255, by omega⟩ :: natEnc (n / 255)
termination_by n
decreasing_by exact Nat.div_lt_self (by omega) (by omega)

/-- Greedy inverse of `natEnc`: reads digits until the `255` terminator,
returning the decoded number and the unread remainder. -/
def natDec : List Byte → Option (Nat × List Byte)
  | [] => none
  | b :: rest =>
    if b.val = 255 then some (0, rest)
    else match natDec rest with
      | some (m, r) => some (b.val + 255 * m, r)
      | none => none

theorem natDec_natEnc (n : Nat) (r : List Byte) :
    natDec (natEnc n ++ r) = some (n, r) := by
  induction n using Nat.strong_induction_on with
  | _ n ih =>
    rw [natEnc]
    by_cases h : n < 255
    · simp only [h, dite_true, List.cons_append, natDec]
      have h1 : n ≠ 255 := by omega
      simp [Fin.ext_iff, h1, show ¬ (n = 255) from h1]
    · simp only [h, dite_false, List.cons_append, natDec]
      have hmod : n % 255 ≠ 255 := by
        have := Nat.mod_lt n (show 0 < 255 by omega)
        omega
      have hdiv : n / 255 < n := Nat.div_lt_self (by omega) (by omega)
      simp only [hmod, ite_false]
      rw [ih (n / 255) hdiv]
      have : n % 255 + 255 * (n / 255) = n := by
        have := Nat.mod_add_div n 255
        omega
      simp [this]

/-- Every `Char`'s code point is below `0x110000`. -/
theorem char_toNat_lt (c : Char) : c.toNat < 1114112 := by
  have h := c.valid
  rcases h with h | h
  · exact Nat.lt_trans h (by norm_num)
  · exact h.2

/-- For a valid code point, `Char.ofNat` inverts `Char.toNat`. -/
theorem toNat_ofNat_of_valid {n : Nat} (h : n.isValidChar) :
    (Char.ofNat n).toNat = n := by
  rw [Char.ofNat, dif_pos h]
  rfl

/-- Fixed-width three-byte little-endian encoding of one character. -/
def char3 (c : Char) : List Byte :=
  [⟨c.toNat % 256, by omega⟩,
   ⟨c.toNat / 256 % 256, by omega⟩,
   ⟨c.toNat / 65536, by have := char_toNat_lt c; omega⟩]

/-- Inverse of `char3` on three raw bytes. -/
def decode3 (b0 b1 b2 : Byte) : Char :=
  Char.ofNat (b0.val + 256 * b1.val + 65536 * b2.val)

theorem decode3_char3 (c : Char) :
    decode3 ⟨c.toNat % 256, by omega⟩ ⟨c.toNat / 256 % 256, by omega⟩
      ⟨c.toNat / 65536, by have := char_toNat_lt c; omega⟩ = c := by
  unfold decode3
  have : c.toNat % 256 + 256 * (c.toNat / 256 % 256) + 65536 * (c.toNat / 65536)
      = c.toNat := by omega
  rw [this, Char.ofNat_toNat]

/-- Encoding of a string: three bytes per character followed by the
terminator block `255 255 255` (unreachable by `char3`, whose third byte
is below 17). -/
def strEnc (s : String) : List Byte :=
  s.data.flatMap char3 ++ [⟨255, by omega⟩, ⟨255, by omega⟩, ⟨255, by omega⟩]

/-- Greedy decoder for `strEnc`-encoded character lists; returns the decoded
characters and the unread remainder. -/
def strDecGo : List Byte → Option (List Char × List Byte)
  | b0 :: b1 :: b2 :: rest =>
    if b0.val = 255 ∧ b1.val = 255 ∧ b2.val = 255 then some ([], rest)
    else match strDecGo rest with
      | some (cs, r) => some (decode3 b0 b1 b2 :: cs, r)
      | none => none
  | _ => none

/-- Greedy decoder for `strEnc`: one string plus the unread remainder. -/
def strDec (l : List Byte) : Option (String × List Byte) :=
  (strDecGo l).map fun p => (String.mk p.1, p.2)

theorem strDecGo_enc (cs : List Char) (r : List Byte) :
    strDecGo (cs.flatMap char3 ++
      [⟨255, by omega⟩, ⟨255, by omega⟩, ⟨255, by omega⟩] ++ r) = some (cs, r) := by
  induction cs with
  | nil => simp [strDecGo]
  | cons c cs ih =>
    have hlt : c.toNat / 65536 < 17 := by have := char_toNat_lt c; omega
    simp only [List.flatMap_cons, char3, List.cons_append, List.append_assoc]
    rw [strDecGo]
    have hne : ¬ ((c.toNat % 256 : Nat) = 255 ∧ (c.toNat / 256 % 256 : Nat) = 255 ∧
        (c.toNat / 65536 : Nat) = 255) := by omega
    simp only [hne, ite_false]
    rw [List.append_assoc] at ih
    simp only [List.cons_append, List.nil_append] at ih ⊢
    rw [ih, decode3_char3]

theorem strDec_strEnc (s : String) (r : List Byte) :
    strDec (strEnc s ++ r) = some (s, r) := by
  unfold strDec strEnc
  rw [strDecGo_enc]
  rfl

theorem strEnc_inj {a b : String} (h : strEnc a = strEnc b) : a = b := by
  have ha := strDec_strEnc a []
  have hb := strDec_strEnc b []
  rw [List.append_nil] at ha hb
  rw [h, hb] at ha
  exact (congrArg Prod.fst (Option.some_injective _ ha)).symm

/-! ### Base64

Models `Buffer.prototype.toString('base64')` / `Buffer.from(·, 'base64')`
used by the default crypto provider's wire format (standard alphabet with
`=` padding). The decoder is strict: a string the encoder cannot produce
decodes to `none`, which the rest of the model treats as a decryption
failure — the same degradation path Node takes on corrupted input. -/

/-- The standard base64 alphabet. -/
def b64Table : List Char :=
  "ABCDEFGHIJKLMNOPQRSTUVWXYZabcdefghijklmnopqrstuvwxyz0123456789+/".data

/-- Character for a sextet value. -/
def b64Char (n : Nat) : Char := b64Table.getD n 'A'

/-- Sextet value of an alphabet character. -/
def b64DecChar (c : Char) : Option (Fin 64) :=
  match b64Table.indexOf? c with
  | some i => if h : i < 64 then some ⟨i, h⟩ else none
  | none => none

theorem b64DecChar_b64Char : ∀ n : Fin 64, b64DecChar (b64Char n.val) = some n := by
  decide

theorem b64Char_ne_pad : ∀ n : Fin 64, b64Char n.val ≠ '=' := by
  decide

/-- Base64-encode a byte list, three bytes to four characters, padded. -/
def b64EncodeBytes : List Byte → List Char
  | [] => []
  | [a] => [b64Char (a.val / 4), b64Char (a.val % 4 * 16), '=', '=']
  | [a, b] => [b64Char (a.val / 4), b64Char (a.val % 4 * 16 + b.val / 16),
               b64Char (b.val % 16 * 4), '=']
  | a :: b :: c :: rest =>
    b64Char (a.val / 4) :: b64Char (a.val % 4 * 16 + b.val / 16) ::
    b64Char (b.val % 16 * 4 + c.val / 64) :: b64Char (c.val % 64) ::
    b64EncodeBytes rest

/-- Base64-decode a character list; `none` on any malformed input. -/
def b64DecodeChars : List Char → Option (List Byte)
  | [] => some []
  | c1 :: c2 :: c3 :: c4 :: rest =>
    match b64DecChar c1, b64DecChar c2 with
    | some s1, some s2 =>
      if c3 = '=' then
        if c4 = '=' ∧ rest = [] then
          some [⟨s1.val * 4 + s2.val / 16, by have := s1.isLt; have := s2.isLt; omega⟩]
        else none
      else
        match b64DecChar c3 with
        | some s3 =>
          if c4 = '=' then
            if rest = [] then
              some [⟨s1.val * 4 + s2.val / 16, by have := s1.isLt; have := s2.isLt; omega⟩,
                    ⟨s2.val % 16 * 16 + s3.val / 4, by have := s3.isLt; omega⟩]
            else none
          else
            match b64DecChar c4, b64DecodeChars rest with
            | some s4, some bs =>
              some (⟨s1.val * 4 + s2.val / 16, by have := s1.isLt; have := s2.isLt; omega⟩ ::
                    ⟨s2.val % 16 * 16 + s3.val / 4, by have := s3.isLt; omega⟩ ::
                    ⟨s3.val % 4 * 64 + s4.val, by have := s3.isLt; have := s4.isLt; omega⟩ :: bs)
            | _, _ => none
        | none => none
    | _, _ => none
  | _ => none

theorem b64DecodeChars_enc (l : List Byte) :
    b64DecodeChars (b64EncodeBytes l) = some l := by
  induction l using b64EncodeBytes.induct with
  | case1 => rfl
  | case2 a =>
    have h1 : (a.val / 4 : Nat) < 64 := by have := a.isLt; omega
    have h2 : (a.val % 4 * 16 : Nat) < 64 := by omega
    have d1 : b64DecChar (b64Char (a.val / 4)) = some ⟨a.val / 4, h1⟩ :=
      b64DecChar_b64Char ⟨a.val / 4, h1⟩
    have d2 : b64DecChar (b64Char (a.val % 4 * 16)) = some ⟨a.val % 4 * 16, h2⟩ :=
      b64DecChar_b64Char ⟨a.val % 4 * 16, h2⟩
    rw [b64EncodeBytes, b64DecodeChars]
    simp only [d1, d2, ite_true, and_self, Option.some.injEq, List.cons.injEq,
      and_true, Fin.ext_iff]
    omega
  | case3 a b =>
    have h1 : (a.val / 4 : Nat) < 64 := by have := a.isLt; omega
    have h2 : (a.val % 4 * 16 + b.val / 16 : Nat) < 64 := by have := b.isLt; omega
    have h3 : (b.val % 16 * 4 : Nat) < 64 := by omega
    have d1 : b64DecChar (b64Char (a.val / 4)) = some ⟨a.val / 4, h1⟩ :=
      b64DecChar_b64Char ⟨a.val / 4, h1⟩
    have d2 : b64DecChar (b64Char (a.val % 4 * 16 + b.val / 16))
        = some ⟨a.val % 4 * 16 + b.val / 16, h2⟩ :=
      b64DecChar_b64Char ⟨a.val % 4 * 16 + b.val / 16, h2⟩
    have d3 : b64DecChar (b64Char (b.val % 16 * 4)) = some ⟨b.val % 16 * 4, h3⟩ :=
      b64DecChar_b64Char ⟨b.val % 16 * 4, h3⟩
    have p3 : b64Char (b.val % 16 * 4) ≠ '=' := b64Char_ne_pad ⟨b.val % 16 * 4, h3⟩
    rw [b64EncodeBytes, b64DecodeChars]
    simp only [d1, d2, d3, p3, ite_false, ite_true, Option.some.injEq,
      List.cons.injEq, and_true, Fin.ext_iff]
    have := b.isLt
    omega
  | case4 a b c rest ih =>
    have h1 : (a.val / 4 : Nat) < 64 := by have := a.isLt; omega
    have h2 : (a.val % 4 * 16 + b.val / 16 : Nat) < 64 := by have := b.isLt; omega
    have h3 : (b.val % 16 * 4 + c.val / 64 : Nat) < 64 := by have := c.isLt; omega
    have h4 : (c.val % 64 : Nat) < 64 := by omega
    have d1 : b64DecChar (b64Char (a.val / 4)) = some ⟨a.val / 4, h1⟩ :=
      b64DecChar_b64Char ⟨a.val / 4, h1⟩
    have d2 : b64DecChar (b64Char (a.val % 4 * 16 + b.val / 16))
        = some ⟨a.val % 4 * 16 + b.val / 16, h2⟩ :=
      b64DecChar_b64Char ⟨a.val % 4 * 16 + b.val / 16, h2⟩
    have d3 : b64DecChar (b64Char (b.val % 16 * 4 + c.val / 64))
        = some ⟨b.val % 16 * 4 + c.val / 64, h3⟩ :=
      b64DecChar_b64Char ⟨b.val % 16 * 4 + c.val / 64, h3⟩
    have d4 : b64DecChar (b64Char (c.val % 64)) = some ⟨c.val % 64, h4⟩ :=
      b64DecChar_b64Char ⟨c.val % 64, h4⟩
    have p3 : b64Char (b.val % 16 * 4 + c.val / 64) ≠ '=' :=
      b64Char_ne_pad ⟨b.val % 16 * 4 + c.val / 64, h3⟩
    have p4 : b64Char (c.val % 64) ≠ '=' := b64Char_ne_pad ⟨c.val % 64, h4⟩
    rw [b64EncodeBytes, b64DecodeChars]
    simp only [d1, d2, d3, d4, p3, p4, ite_false, ih, Option.some.injEq,
      List.cons.injEq, Fin.ext_iff, and_true]
    have := b.isLt
    have := c.isLt
    omega

/-- `buffer.toString('base64')`. -/
def b64Encode (l : List Byte) : String := String.mk (b64EncodeBytes l)

/-- `Buffer.from(s, 'base64')` (strict). -/
def b64Decode (s : String) : Option (List Byte) := b64DecodeChars s.data

theorem b64Decode_b64Encode (l : List Byte) : b64Decode (b64Encode l) = some l :=
  b64DecodeChars_enc l

/-! ### The crypto provider -/

/-- Modelled from the spec: Node `crypto`'s AES-256-GCM cipher and sha256 key
derivation (`createHash('sha256')`, `createCipheriv`/`createDecipheriv` with
`ALGORITHM = 'aes-256-gcm'`) are external to the repository's sources and are
"treated as one interchangeable crypto provider" (spec §1, §4.2).  They are
idealized as an AEAD: sealing under a (hashed) key yields a ciphertext and a
16-byte authentication tag; opening succeeds exactly under the sealing key
and recovers the plaintext, and fails under any other key ("verify the tag
during decryption, failing with a decryption error on any tamper or
corruption"); the hash is collision-free. -/
structure AEADModel where
  hash : String → List Byte
  aeSeal : List Byte → List Byte → String → List Byte × List Byte
  opn : List Byte → List Byte → List Byte → List Byte → Option String
  tag_len : ∀ k iv pt, (aeSeal k iv pt).2.length = 16
  opn_aeSeal : ∀ k iv pt,
    opn (hash k) iv (aeSeal (hash k) iv pt).2 (aeSeal (hash k) iv pt).1 = some pt
  opn_wrong_key : ∀ k k' iv pt, hash k ≠ hash k' →
    opn (hash k') iv (aeSeal (hash k) iv pt).2 (aeSeal (hash k) iv pt).1 = none
  hash_inj : ∀ a b, hash a = hash b → a = b

/-- `encryptPassport` (src/unnamed/part_001 lines 4-18, and the callback
variant in src/src/utils/encryption.js): derive the key by hashing the
signing key, seal under a fresh 12-byte IV (`randomBytes(IV_LENGTH)`,
passed here as the parameter `iv`), and base64-encode
`IV || TAG || CIPHERTEXT`. -/
def encryptPassport (A : AEADModel) (iv : List Byte) (data signingKey : String) : String :=
  let key := A.hash signingKey
  let sealed := A.aeSeal key iv data
  b64Encode (iv ++ sealed.2 ++ sealed.1)

/-- `decryptPassport` (src/unnamed/part_001 lines 20-36): base64-decode, slice
`subarray(0,12)` / `subarray(12,28)` / `subarray(28)` into IV, tag and
ciphertext, and open under the hashed signing key.  Any failure surfaces as
an error result (the thrown error is passed to the caller in the source). -/
def decryptPassport (A : AEADModel) (data signingKey : String) : Except String String :=
  match b64Decode data with
  | none => .error "decryption failed"
  | some buffer =>
    let iv := buffer.take 12
    let tag := (buffer.drop 12).take 16
    let encrypted := buffer.drop 28
    match A.opn (A.hash signingKey) iv tag encrypted with
    | some pt => .ok pt
    | none => .error "decryption failed"

theorem decryptPassport_encryptPassport (A : AEADModel) (iv : List Byte)
    (h12 : iv.length = 12) (s k : String) :
    decryptPassport A (encryptPassport A iv s k) k = .ok s := by
  unfold encryptPassport decryptPassport
  rw [b64Decode_b64Encode]
  have htag := A.tag_len (A.hash k) iv s
  have htake : (iv ++ ((A.aeSeal (A.hash k) iv s).2 ++ (A.aeSeal (A.hash k) iv s).1)).take 12
      = iv := by
    rw [← h12, List.take_left]
  have hdrop : (iv ++ ((A.aeSeal (A.hash k) iv s).2 ++ (A.aeSeal (A.hash k) iv s).1)).drop 12
      = (A.aeSeal (A.hash k) iv s).2 ++ (A.aeSeal (A.hash k) iv s).1 := by
    rw [← h12, List.drop_left]
  simp only [List.append_assoc, htake, hdrop]
  have htag16 : ((A.aeSeal (A.hash k) iv s).2 ++ (A.aeSeal (A.hash k) iv s).1).take 16
      = (A.aeSeal (A.hash k) iv s).2 := by
    rw [← htag, List.take_left]
  have hct : (iv ++ ((A.aeSeal (A.hash k) iv s).2 ++ (A.aeSeal (A.hash k) iv s).1)).drop 28
      = (A.aeSeal (A.hash k) iv s).1 := by
    rw [show (28 : Nat) = 12 + 16 by rfl, ← List.drop_drop, hdrop, ← htag, List.drop_left]
  simp only [htag16, hct]
  rw [A.opn_aeSeal]

theorem decryptPassport_wrong_key (A : AEADModel) (iv : List Byte)
    (h12 : iv.length = 12) (s k k' : String) (hne : k ≠ k') :
    decryptPassport A (encryptPassport A iv s k) k' = .error "decryption failed" := by
  unfold encryptPassport decryptPassport
  rw [b64Decode_b64Encode]
  have htag := A.tag_len (A.hash k) iv s
  have htake : (iv ++ ((A.aeSeal (A.hash k) iv s).2 ++ (A.aeSeal (A.hash k) iv s).1)).take 12
      = iv := by
    rw [← h12, List.take_left]
  have hdrop : (iv ++ ((A.aeSeal (A.hash k) iv s).2 ++ (A.aeSeal (A.hash k) iv s).1)).drop 12
      = (A.aeSeal (A.hash k) iv s).2 ++ (A.aeSeal (A.hash k) iv s).1 := by
    rw [← h12, List.drop_left]
  simp only [List.append_assoc, htake, hdrop]
  have htag16 : ((A.aeSeal (A.hash k) iv s).2 ++ (A.aeSeal (A.hash k) iv s).1).take 16
      = (A.aeSeal (A.hash k) iv s).2 := by
    rw [← htag, List.take_left]
  have hct : (iv ++ ((A.aeSeal (A.hash k) iv s).2 ++ (A.aeSeal (A.hash k) iv s).1)).drop 28
      = (A.aeSeal (A.hash k) iv s).1 := by
    rw [show (28 : Nat) = 12 + 16 by rfl, ← List.drop_drop, hdrop, ← htag, List.drop_left]
  have hh : A.hash k ≠ A.hash k' := fun h => hne (A.hash_inj _ _ h)
  simp only [htag16, hct]
  rw [A.opn_wrong_key k k' iv s hh]

/-- A concrete executable `AEADModel` used to exercise the theorems on
concrete inputs: the "hash" is the injective `strEnc` packing, the
"ciphertext" records the hashed key and the plaintext, and the tag is a
constant 16-byte block. -/
def toyAEAD : AEADModel where
  hash := strEnc
  aeSeal := fun k _ pt => (k ++ strEnc pt, List.replicate 16 (0 : Byte))
  opn := fun k' _ tag ct =>
    if tag = List.replicate 16 (0 : Byte) then
      match strDec ct with
      | some (kStr, rest) =>
        if strEnc kStr = k' then
          match strDec rest with
          | some (pt, r) => if r = [] then some pt else none
          | none => none
        else none
      | none => none
    else none
  tag_len := by intro k iv pt; simp
  opn_aeSeal := by
    intro k iv pt
    simp only [ite_true]
    rw [strDec_strEnc k (strEnc pt)]
    simp only [ite_true]
    have := strDec_strEnc pt []
    rw [List.append_nil] at this
    simp [this]
  opn_wrong_key := by
    intro k k' iv pt hne
    simp only [ite_true]
    rw [strDec_strEnc k (strEnc pt)]
    simp [hne]
  hash_inj := fun _ _ h => strEnc_inj h

/-! ### Timeout Guard, promise variant (src/unnamed/part_000)

An asynchronous operation is modelled by its settlement behaviour: `none`
if it never settles, `some (t, r)` if it settles at time `t` (ms after the
guard starts) with result `r` (`.ok` = resolution, `.error` = rejection).
The guard races the operation against a deadline timer of `timeout` ms and
returns the settle time and result of the race. -/

/-- The rejection message of src/unnamed/part_000 line 4. -/
def timeoutErrMsg (mode : String) (tmo : Nat) : String :=
  mode ++ " function timed out. Ensure you call the callback or return properly within "
    ++ toString tmo ++ "ms."

/-- `withTimeout(mode, asyncFunc, args, timeout)` (src/unnamed/part_000):
if the operation settles strictly before the deadline it wins the race
(the timer is cleared and its result is the outcome); otherwise the guard
rejects with the timeout error at exactly the deadline. -/
def withTimeoutP (mode : String) (tmo : Nat) (op : Option (Nat × Except String String)) :
    Nat × Except String String :=
  match op with
  | none => (tmo, .error (timeoutErrMsg mode tmo))
  | some (t, r) => if t < tmo then (t, r) else (tmo, .error (timeoutErrMsg mode tmo))

/-! ### Timeout Guard, callback variant (src/src/utils/timeout.js)

The function is embedded as a small event machine: the runtime delivers a
sequence of events (the deadline timer firing, the wrapped operation
invoking its completion callback — possibly several times, in any order),
and the guard's closure state consists of the `called` flag, whether
`clearTimeout` has been invoked, and the list of invocations of the outer
callback `cb`. -/

/-- The timeout error message of src/src/utils/timeout.js line 7. -/
def cbTimeoutMsg (mode : String) : String :=
  mode ++ " function timed out. Ensure you call the callback or return properly."

/-- An event delivered to the guard: the deadline timer fires, or the
wrapped operation invokes its completion signal with result `r`. -/
inductive GEvent where
  | timerFire
  | opDone (r : Except String String)

/-- The guard's closure state: the `called` flag, whether `clearTimeout(timer)`
has run, and the invocations of the outer callback so far. -/
structure GuardState where
  called : Bool
  timerCleared : Bool
  cbCalls : List (Except String String)

/-- Initial state: timer armed, callback not yet called. -/
def guardInit : GuardState := { called := false, timerCleared := false, cbCalls := [] }

/-- One event of `withTimeout` (src/src/utils/timeout.js lines 4-17): a cleared
timer never fires; the timer path fires `cb` with the timeout error only if
`called` is still false; the operation path fires `cb` with its result and
clears the timer only if `called` is still false. -/
def guardStep (mode : String) (s : GuardState) : GEvent → GuardState
  | .timerFire =>
    if s.timerCleared then s
    else if s.called then s
    else { called := true, timerCleared := s.timerCleared,
           cbCalls := s.cbCalls ++ [.error (cbTimeoutMsg mode)] }
  | .opDone r =>
    if s.called then s
    else { called := true, timerCleared := true, cbCalls := s.cbCalls ++ [r] }

/-- Run the guard over a sequence of runtime events. -/
def guardRun (mode : String) (evs : List GEvent) : GuardState :=
  evs.foldl (guardStep mode) guardInit

theorem guardStep_called {mode : String} {s : GuardState} (h : s.called = true)
    (e : GEvent) : guardStep mode s e = s := by
  cases e with
  | timerFire => simp [guardStep, h]
  | opDone r => simp [guardStep, h]

theorem guardRun_called_frozen {mode : String} {evs : List GEvent}
    (h : (guardRun mode evs).called = true) (more : List GEvent) :
    guardRun mode (evs ++ more) = guardRun mode evs := by
  unfold guardRun at h ⊢
  rw [List.foldl_append]
  induction more with
  | nil => rfl
  | cons e more ih =>
    rw [List.foldl_cons, guardStep_called h]
    exact ih

theorem guardRun_first_event (mode : String) (e : GEvent) (evs : List GEvent) :
    (guardRun mode (e :: evs)).called = true ∧
    (guardRun mode (e :: evs)).cbCalls.length = 1 := by
  have hstep : (guardStep mode guardInit e).called = true ∧
      (guardStep mode guardInit e).cbCalls.length = 1 := by
    cases e with
    | timerFire => simp [guardStep, guardInit]
    | opDone r => simp [guardStep, guardInit]
  have frozen : ∀ (s : GuardState), s.called = true →
      (evs.foldl (guardStep mode) s) = s := by
    intro s hs
    induction evs with
    | nil => rfl
    | cons x xs ih =>
      rw [List.foldl_cons, guardStep_called hs]
      exact ih
  unfold guardRun
  rw [List.foldl_cons, frozen _ hstep.1]
  exact hstep

/-! ### The envelope and its codec -/

/-- The session envelope (spec §3): the caller-visible session fields plus an
absolute expiry timestamp in unix milliseconds.  Session fields are
modelled as string key/value pairs. -/
structure Envelope where
  data : List (String × String)
  expireAt : Nat
deriving DecidableEq

/-- Modelled from the spec: `JSON.stringify` / `JSON.parse` restricted to the
envelope JSON shape `{"data": {...}, "expireAt": <integer unix-ms>}`
(spec §6); both are JavaScript builtins external to the repository's
sources.  `parse` returns `none` on text that is not a well-formed
envelope, and parsing inverts serialization. -/
structure CodecModel where
  stringify : Envelope → String
  parse : String → Option Envelope
  parse_stringify : ∀ e, parse (stringify e) = some e

/-! ### Key rotation: the decrypt loop (src/unnamed/part_002 lines 114-128) -/

/-- The rotation loop, one entry per key, consuming the settled outcome of
`withTimeout("Decryption", decrypt, [rawCookieValue, decryptKey], timeout)`
for each key in order: a rejected attempt (decrypt error or timeout) or an
unparsable plaintext falls into `catch { continue }`; a parsed envelope
with `Date.now() > envelope.expireAt` hits `break` leaving the session
empty; otherwise the envelope is accepted and the loop breaks. -/
def decryptLoop (now : Nat) (parse : String → Option Envelope) :
    List (Except String String) → Option Envelope
  | [] => none
  | .error _ :: rest => decryptLoop now parse rest
  | .ok pt :: rest =>
    match parse pt with
    | none => decryptLoop now parse rest
    | some env => if now > env.expireAt then none else some env

/-- An attempt outcome the loop treats as failed: a rejected decrypt or a
plaintext the codec cannot parse. -/
def attemptFailsB (parse : String → Option Envelope) : Except String String → Bool
  | .error _ => true
  | .ok pt => (parse pt).isNone

theorem decryptLoop_skip_fails {now : Nat} {parse : String → Option Envelope}
    {outs : List (Except String String)}
    (hall : ∀ o ∈ outs, attemptFailsB parse o = true) (more : List (Except String String)) :
    decryptLoop now parse (outs ++ more) = decryptLoop now parse more := by
  induction outs with
  | nil => rfl
  | cons o os ih =>
    have ho := hall o (List.mem_cons_self o os)
    have hos : ∀ o ∈ os, attemptFailsB parse o = true :=
      fun x hx => hall x (List.mem_cons_of_mem o hx)
    cases o with
    | error e => simpa [decryptLoop] using ih hos
    | ok pt =>
      have : parse pt = none := by
        simpa [attemptFailsB, Option.isNone_iff_eq_none] using ho
      rw [List.cons_append, decryptLoop, this]
      exact ih hos

theorem decryptLoop_all_fail {now : Nat} {parse : String → Option Envelope}
    {outs : List (Except String String)}
    (hall : ∀ o ∈ outs, attemptFailsB parse o = true) :
    decryptLoop now parse outs = none := by
  have h2 := @decryptLoop_skip_fails now parse outs hall []
  rw [List.append_nil] at h2
  rw [h2]
  rfl

theorem decryptLoop_expired {now : Nat} {parse : String → Option Envelope}
    {pt : String} {env : Envelope} (hp : parse pt = some env)
    (hx : now > env.expireAt) (rest : List (Except String String)) :
    decryptLoop now parse (.ok pt :: rest) = none := by
  rw [decryptLoop, hp]
  simp [hx]

theorem decryptLoop_accept {now : Nat} {parse : String → Option Envelope}
    {pt : String} {env : Envelope} (hp : parse pt = some env)
    (hx : ¬ now > env.expireAt) (rest : List (Except String String)) :
    decryptLoop now parse (.ok pt :: rest) = some env := by
  rw [decryptLoop, hp]
  simp [hx]

/-- The settlement behaviour of the default decrypt provider: `decryptPassport`
is synchronous (it computes and calls back immediately), so it settles at
time 0 with its result. -/
def defaultDecrypt (A : AEADModel) : String → String → Option (Nat × Except String String) :=
  fun cookieValue k => some (0, decryptPassport A cookieValue k)

/-- Session load for a request carrying a cookie (src/unnamed/part_002 lines
112-130): every key attempt runs the pluggable `decrypt` under the Timeout
Guard, and the rotation loop consumes the attempt outcomes in key order.
`dec cookieValue key` is the settlement behaviour of the decrypt promise.
`none` is the empty session. -/
def loadSession (C : CodecModel) (tmo : Nat)
    (dec : String → String → Option (Nat × Except String String))
    (now : Nat) (cookieValue : String) (keys : List String) : Option Envelope :=
  decryptLoop now C.parse
    (keys.map fun k => (withTimeoutP "Decryption" tmo (dec cookieValue k)).2)

/-! ### The save path (src/unnamed/part_002 lines 63-96) -/

/-- `encodeURIComponent`'s unreserved characters: `A-Z a-z 0-9 - _ . ! ~ * ' ( )`. -/
def uriUnreserved (c : Char) : Bool :=
  let n := c.toNat
  (65 ≤ n && n ≤ 90) || (97 ≤ n && n ≤ 122) || (48 ≤ n && n ≤ 57) ||
  n == 45 || n == 95 || n == 46 || n == 33 || n == 126 || n == 42 || n == 39 ||
  n == 40 || n == 41

/-- Uppercase hexadecimal digit. -/
def hexDigit (n : Nat) : Char := "0123456789ABCDEF".data.getD n '0'

/-- UTF-8 bytes of one character. -/
def utf8Bytes (c : Char) : List Nat :=
  let n := c.toNat
  if n < 128 then [n]
  else if n < 2048 then [192 + n / 64, 128 + n % 64]
  else if n < 65536 then [224 + n / 4096, 128 + n / 64 % 64, 128 + n % 64]
  else [240 + n / 262144, 128 + n / 4096 % 64, 128 + n / 64 % 64, 128 + n % 64]

/-- `encodeURIComponent`: unreserved characters pass through, every other
character is replaced by `%XX` escapes of its UTF-8 bytes. -/
def percentEncode (s : String) : String :=
  String.mk (s.data.flatMap fun c =>
    if uriUnreserved c then [c]
    else (utf8Bytes c).flatMap fun b => ['%', hexDigit (b / 16), hexDigit (b % 16)])

/-- `Buffer.byteLength(encodeURIComponent(encrypted), 'utf8')` (part_002 lines
84-85): the percent-encoded output is pure ASCII, so its UTF-8 byte length
equals its character count. -/
def cookieSize (v : String) : Nat := (percentEncode v).length

/-- The validated cookie options (spec §3 CookieOptions). -/
structure CookieOptions where
  path : String
  httpOnly : Bool
  secure : Bool
  sameSite : String
  domain : Option String
  maxAge : Nat
deriving DecidableEq

/-- A serialized `Set-Cookie` header, abstracting the external `cookie`
library (spec §1 treats header serialization as a black box): the cookie
name, its value, the absolute `expires` attribute, and the remaining
attributes spread from the configured cookie options. -/
structure SetCookieHeader where
  name : String
  value : String
  expires : Nat
  opts : CookieOptions
deriving DecidableEq

/-- The completion of one `save` call: a `Set-Cookie` header was emitted and
the callback invoked with no error, or the callback received an encryption
error (including timeout), or the size-limit error. -/
inductive SaveOutcome where
  | set (h : SetCookieHeader)
  | errEncrypt (msg : String)
  | errTooLarge (size bound : Nat)
deriving DecidableEq

/-- The request-scoped session state relevant to the save cycle: the
`passport` object (the meaningful payload) and the cached absolute expiry
`internalExpireAt` (`null` before it is first computed). -/
structure SessState where
  passport : Option (List (String × String))
  internalExpireAt : Option Nat
deriving DecidableEq

/-- Session state installed by `finishSessionLoad` (part_002 lines 58-59,
121-122): the empty session, or the restored passport data with
`internalExpireAt` taken from the accepted envelope. -/
def stateAfterLoad : Option Envelope → SessState
  | none => { passport := none, internalExpireAt := none }
  | some env => { passport := some env.data, internalExpireAt := some env.expireAt }

/-- `req.session.save` (src/unnamed/part_002 lines 63-96).
* No meaningful payload (`!req.session?.passport ||
  Object.keys(req.session?.passport).length === 0`): serialize an
  immediate-expiry deletion cookie (empty value, `expires = new Date(0)`)
  and return without touching the crypto provider or `internalExpireAt`.
* Otherwise `internalExpireAt ||= Date.now() + maxAge*1000` (modelled with
  `Option.getD`; a restored envelope's `expireAt` is a non-zero unix-ms
  timestamp whenever the envelope was accepted against a positive clock,
  so JS falsiness coincides with the `none` check), build the envelope,
  encrypt it under the Timeout Guard, reject oversized percent-encoded
  ciphertexts, and otherwise emit the header with `expires =
  internalExpireAt`.
`enc data key` is the settlement behaviour of the pluggable encrypt
promise.  Returns the outcome together with the updated session state. -/
def save (C : CodecModel) (tmo : Nat)
    (enc : String → String → Option (Nat × Except String String))
    (signingKey name : String) (opts : CookieOptions) (maxCookieSize : Nat)
    (now : Nat) (st : SessState) : SaveOutcome × SessState :=
  let empty := match st.passport with
    | none => true
    | some p => p.isEmpty
  if empty then
    (.set { name := name, value := "", expires := 0, opts := opts }, st)
  else
    let p := st.passport.getD []
    let ie := st.internalExpireAt.getD (now + opts.maxAge * 1000)
    let st' : SessState := { st with internalExpireAt := some ie }
    match (withTimeoutP "Encryption" tmo (enc (C.stringify { data := p, expireAt := ie }) signingKey)).2 with
    | .error msg => (.errEncrypt msg, st')
    | .ok encrypted =>
      if cookieSize encrypted > maxCookieSize then
        (.errTooLarge (cookieSize encrypted) maxCookieSize, st')
      else
        (.set { name := name, value := encrypted, expires := ie, opts := opts }, st')

/-- Repeated `save` calls within one request, at the given sequence of clock
readings, threading the session state. -/
def saveSeq (C : CodecModel) (tmo : Nat)
    (enc : String → String → Option (Nat × Except String String))
    (signingKey name : String) (opts : CookieOptions) (maxCookieSize : Nat) :
    SessState → List Nat → List SaveOutcome × SessState
  | st, [] => ([], st)
  | st, t :: ts =>
    let r := save C tmo enc signingKey name opts maxCookieSize t st
    let rs := saveSeq C tmo enc signingKey name opts maxCookieSize r.2 ts
    (r.1 :: rs.1, rs.2)

/-- The `expires` attributes of the headers emitted by a list of save
outcomes. -/
def emittedExpires (outs : List SaveOutcome) : List Nat :=
  outs.filterMap fun o => match o with
    | .set h => some h.expires
    | _ => none

/-! ### The legacy flat variant's session restore
(src/passport-cookie-session.js lines 241-338) -/

/-- A JavaScript value, for the flat variant's session object. -/
inductive JsVal where
  | jnull
  | jbool (b : Bool)
  | jnum (n : Nat)
  | jstr (s : String)
  | jobj (fields : List (String × JsVal))

/-- Property lookup on a JavaScript object. -/
def objGet (o : List (String × JsVal)) (k : String) : Option JsVal :=
  match o with
  | [] => none
  | (k', v) :: rest => if k' = k then some v else objGet rest k

/-- The object `{...o, k: v}`: all of `o`'s properties with `k` bound to
`v` (property order is irrelevant to `objGet`). -/
def objSet (o : List (String × JsVal)) (k : String) (v : JsVal) : List (String × JsVal) :=
  (o.filter fun kv => kv.1 != k) ++ [(k, v)]

theorem objGet_objSet (o : List (String × JsVal)) (k : String) (v : JsVal) :
    objGet (objSet o k v) k = some v := by
  unfold objSet
  induction o with
  | nil => simp [objGet]
  | cons kv rest ih =>
    by_cases h : kv.1 = k
    · simp only [List.filter_cons, h, bne_self_eq_false, Bool.false_eq_true, ite_false]
      exact ih
    · have hb : (kv.1 != k) = true := bne_iff_ne.mpr h
      simp only [List.filter_cons, hb, ite_true, List.cons_append, objGet, h, ite_false]
      exact ih

/-- The transport cookie metadata the flat variant installs on every fresh
session (src/passport-cookie-session.js lines 245-254), derived from the
configured cookie options. -/
def flatInitialCookieMeta (opts : CookieOptions) : List (String × JsVal) :=
  [("path", .jstr opts.path), ("httpOnly", .jbool opts.httpOnly),
   ("secure", .jbool opts.secure), ("sameSite", .jstr opts.sameSite),
   ("originalMaxAge", .jnum (opts.maxAge * 1000)), ("_expires", .jnull)]

/-- The flat variant's restore on a successful decrypt+parse
(src/passport-cookie-session.js lines 324-328):
`session = { ...envelope.data, cookie: session.cookie }` followed by
`session.cookie._expires = new Date(envelope.expireAt)`. -/
def flatRestoreSession (opts : CookieOptions) (envData : List (String × JsVal))
    (expireAt : Nat) : List (String × JsVal) :=
  objSet envData "cookie"
    (.jobj (objSet (flatInitialCookieMeta opts) "_expires" (.jnum expireAt)))

/-! ### A concrete codec instance -/

/-- Pack one byte into a character. -/
def byteChar (b : Byte) : Char := Char.ofNat b.val

/-- Recover a byte from a character, if it is in range. -/
def charByte (c : Char) : Option Byte :=
  if h : c.toNat < 256 then some ⟨c.toNat, h⟩ else none

/-- Recover a byte list from a character list. -/
def charsBytes : List Char → Option (List Byte)
  | [] => some []
  | c :: cs =>
    match charByte c, charsBytes cs with
    | some b, some bs => some (b :: bs)
    | _, _ => none

theorem charByte_byteChar (b : Byte) : charByte (byteChar b) = some b := by
  have hv : (b.val : Nat).isValidChar := Or.inl (by have := b.isLt; omega)
  unfold byteChar charByte
  rw [toNat_ofNat_of_valid hv]
  simp [b.isLt]

theorem charsBytes_map (l : List Byte) : charsBytes (l.map byteChar) = some l := by
  induction l with
  | nil => rfl
  | cons b bs ih =>
    rw [List.map_cons, charsBytes, charByte_byteChar, ih]

/-- Byte encoding of the envelope's data fields. -/
def pairsBody (ps : List (String × String)) : List Byte :=
  ps.flatMap fun p => strEnc p.1 ++ strEnc p.2

/-- Decoder for `pairsBody`, given the number of pairs. -/
def pairsDec : Nat → List Byte → Option (List (String × String) × List Byte)
  | 0, r => some ([], r)
  | n + 1, r =>
    match strDec r with
    | some (a, r1) =>
      match strDec r1 with
      | some (b, r2) =>
        match pairsDec n r2 with
        | some (ps, r3) => some ((a, b) :: ps, r3)
        | none => none
      | none => none
    | none => none

theorem pairsDec_pairsBody (ps : List (String × String)) (r : List Byte) :
    pairsDec ps.length (pairsBody ps ++ r) = some (ps, r) := by
  induction ps generalizing r with
  | nil => rfl
  | cons p ps ih =>
    simp only [pairsBody, List.flatMap_cons, List.length_cons, List.append_assoc]
    rw [pairsDec]
    simp only [strDec_strEnc]
    have h2 := ih r
    simp only [pairsBody] at h2
    simp only [h2]

/-- A concrete executable `CodecModel` used to exercise the theorems on
concrete inputs: the envelope is packed through the self-delimiting byte
encodings, one character per byte. -/
def toyCodec : CodecModel where
  stringify e :=
    String.mk ((natEnc e.expireAt ++ natEnc e.data.length ++ pairsBody e.data).map byteChar)
  parse s :=
    match charsBytes s.data with
    | none => none
    | some bytes =>
      match natDec bytes with
      | none => none
      | some (exp, r1) =>
        match natDec r1 with
        | none => none
        | some (n, r2) =>
          match pairsDec n r2 with
          | some (ps, []) => some { data := ps, expireAt := exp }
          | _ => none
  parse_stringify := by
    intro e
    simp only [charsBytes_map, List.append_assoc, natDec_natEnc]
    have h := pairsDec_pairsBody e.data []
    rw [List.append_nil] at h
    simp only [h]

/-! ### Concrete example data used by the witnesses -/

/-- A concrete parse function for exercising the rotation loop: two known
plaintexts (one expired envelope, one fresh one), everything else is
unparsable. -/
def cexParse : String → Option Envelope := fun s =>
  if s = "expired" then some { data := [], expireAt := 50 }
  else if s = "fresh" then some { data := [("user", "alice")], expireAt := 1000 }
  else none

/-- Concrete cookie options (the defaults of `src/unnamed/part_003`'s
constants table). -/
def optsEx : CookieOptions :=
  { path := "/", httpOnly := true, secure := false, sameSite := "lax",
    domain := none, maxAge := 86400 }

/-- Session state after restoring a concrete envelope. -/
def stEx : SessState := stateAfterLoad (some { data := [("x", "y")], expireAt := 777 })

/-- A concrete always-succeeding encrypt behaviour (settles immediately with
a short constant ciphertext). -/
def encEx : String → String → Option (Nat × Except String String) :=
  fun _ _ => some (0, .ok "ct")

/-! ### Helper facts about `save` -/

theorem save_nonempty_spec (C : CodecModel) (tmo : Nat)
    (enc : String → String → Option (Nat × Except String String))
    (signingKey name : String) (opts : CookieOptions) (maxCookieSize now : Nat)
    (st : SessState) (p : List (String × String))
    (hp : st.passport = some p) (hne : p ≠ []) :
    (save C tmo enc signingKey name opts maxCookieSize now st).2
      = { passport := st.passport,
          internalExpireAt := some (st.internalExpireAt.getD (now + opts.maxAge * 1000)) } ∧
    ∀ h, (save C tmo enc signingKey name opts maxCookieSize now st).1 = .set h →
      h.expires = st.internalExpireAt.getD (now + opts.maxAge * 1000) := by
  have hie : p.isEmpty = false := by
    cases p with
    | nil => exact absurd rfl hne
    | cons a l => rfl
  unfold save
  rw [hp]
  simp only [hie, Option.getD_some, ite_false, Bool.false_eq_true]
  constructor
  · split
    · rfl
    · split
      · rfl
      · rfl
  · intro h
    split
    · intro hx
      exact absurd hx (by simp)
    · split
      · intro hx
        exact absurd hx (by simp)
      · intro hx
        cases hx
        rfl

/-! ### The claims -/

/-- C1 (counterexample): the claim states that an attempt whose plaintext
parses to an envelope with `now > expireAt` is treated as failed and the
resolver advances to the next key, finishing empty only after every key
was tried.  Concretely, with `now = 100` the first attempt parses to an
envelope expired at 50 and the second attempt parses to a fresh envelope
(expiring at 1000) that the loop accepts when reached directly — yet the
loop over both attempts finishes with the empty session: the expired
envelope stops rotation early instead of advancing. -/
theorem claimC1_counterexample :
    cexParse "expired" = some { data := [], expireAt := 50 } ∧
    cexParse "fresh" = some { data := [("user", "alice")], expireAt := 1000 } ∧
    (100 : Nat) > 50 ∧ (100 : Nat) ≤ 1000 ∧
    decryptLoop 100 cexParse [.ok "fresh"]
      = some { data := [("user", "alice")], expireAt := 1000 } ∧
    decryptLoop 100 cexParse [.ok "expired", .ok "fresh"] = none := by
  refine ⟨rfl, rfl, by omega, by omega, ?_, ?_⟩ <;> decide

/-- C1 (amended): in the Key Rotation Resolver, an attempt that fails to
decrypt (error or timeout) or whose plaintext fails to parse as an envelope
is treated as failed and the resolver advances to the next key; but an
attempt that parses to an envelope with `now > expireAt` stops rotation
immediately and the load finishes with the empty session (`break` in
src/unnamed/part_002 line 119, `finishSessionLoad()` in the callback
variants) without trying the remaining keys; after all keys have been
tried without success the load finishes with the empty session. -/
theorem claimC1 (now : Nat) (parse : String → Option Envelope)
    (pre rest : List (Except String String)) (pt : String) (env : Envelope) :
    ((∀ o ∈ pre, attemptFailsB parse o = true) →
      decryptLoop now parse (pre ++ rest) = decryptLoop now parse rest) ∧
    (parse pt = some env → now > env.expireAt →
      decryptLoop now parse (.ok pt :: rest) = none) ∧
    ((∀ o ∈ pre, attemptFailsB parse o = true) → decryptLoop now parse pre = none) := by
  refine ⟨fun hall => decryptLoop_skip_fails hall rest,
          fun hp hx => decryptLoop_expired hp hx rest,
          fun hall => decryptLoop_all_fail hall⟩

/-- C1 witness: the amended theorem at concrete inputs — two failed attempts
advance to a later fresh attempt; an expired attempt yields the empty
session; exhausting only failed attempts yields the empty session. -/
theorem claimC1_witness :
    (decryptLoop 100 cexParse ([.error "boom", .ok "junk"] ++ [.ok "fresh"])
      = decryptLoop 100 cexParse [.ok "fresh"]) ∧
    decryptLoop 100 cexParse (.ok "expired" :: [.ok "fresh"]) = none ∧
    decryptLoop 100 cexParse [.error "boom", .ok "junk"] = none :=
  ⟨(claimC1 100 cexParse [.error "boom", .ok "junk"] [.ok "fresh"] "expired"
      { data := [], expireAt := 50 }).1 (by decide),
   (claimC1 100 cexParse [.error "boom", .ok "junk"] [.ok "fresh"] "expired"
      { data := [], expireAt := 50 }).2.1 (by decide) (by decide),
   (claimC1 100 cexParse [.error "boom", .ok "junk"] [.ok "fresh"] "expired"
      { data := [], expireAt := 50 }).2.2 (by decide)⟩

/-- C4: the callback Timeout Guard (src/src/utils/timeout.js) settles exactly
once.  For every delivery order of runtime events: a nonempty event
sequence invokes the outer callback exactly once; once either path has
fired (`called = true`) every later event leaves the whole guard state
unchanged (the loser is a no-op whose result is discarded); and when the
operation wins the race (completes while `called` is still false) the
pending timer is cancelled (`clearTimeout`). -/
theorem claimC4 (mode : String) (e : GEvent) (evs more : List GEvent)
    (r : Except String String) :
    (guardRun mode (e :: evs)).cbCalls.length = 1 ∧
    ((guardRun mode evs).called = true →
      guardRun mode (evs ++ more) = guardRun mode evs) ∧
    ((guardRun mode evs).called = false →
      (guardStep mode (guardRun mode evs) (.opDone r)).timerCleared = true) := by
  refine ⟨(guardRun_first_event mode e evs).2, fun h => guardRun_called_frozen h more,
    fun h => ?_⟩
  unfold guardStep
  simp [h]

/-- C4 witness: concrete event orders — operation completes then the timer
fires (callback called once, timer event a no-op), the frozen-state part
after the operation already settled, and timer cancellation when the
operation wins from the initial state. -/
theorem claimC4_witness :
    (guardRun "Decryption" [.opDone (.ok "pt"), .timerFire]).cbCalls.length = 1 ∧
    guardRun "Decryption" ([.opDone (.ok "pt")] ++ [.timerFire, .opDone (.error "late")])
      = guardRun "Decryption" [.opDone (.ok "pt")] ∧
    (guardStep "Decryption" (guardRun "Decryption" []) (.opDone (.ok "pt"))).timerCleared
      = true :=
  ⟨(claimC4 "Decryption" (.opDone (.ok "pt")) [.timerFire] [] (.ok "pt")).1,
   (claimC4 "Decryption" (.opDone (.ok "pt")) [.opDone (.ok "pt")]
      [.timerFire, .opDone (.error "late")] (.ok "pt")).2.1 (by decide),
   (claimC4 "Decryption" (.opDone (.ok "pt")) [] [] (.ok "pt")).2.2 (by decide)⟩

/-- C5: default-provider round trip.  For every AEAD realization of the
external cipher, every 12-byte IV, every plaintext string and signing key,
`decryptPassport(encryptPassport(s, k), k) = s`; consequently a serialized
envelope round-trips through encrypt-then-decrypt-then-parse to an
envelope with identical `data` and `expireAt`. -/
theorem claimC5 (A : AEADModel) (C : CodecModel) (iv : List Byte)
    (h12 : iv.length = 12) (s k : String) (env : Envelope) :
    decryptPassport A (encryptPassport A iv s k) k = .ok s ∧
    (match decryptPassport A (encryptPassport A iv (C.stringify env) k) k with
      | .ok pt => C.parse pt
      | .error _ => none) = some env := by
  refine ⟨decryptPassport_encryptPassport A iv h12 s k, ?_⟩
  rw [decryptPassport_encryptPassport A iv h12 (C.stringify env) k]
  exact C.parse_stringify env

/-- C5 witness: the round trip on concrete data through the concrete AEAD
instance and codec. -/
theorem claimC5_witness :
    decryptPassport toyAEAD
      (encryptPassport toyAEAD (List.replicate 12 0) "hello" "k1") "k1" = .ok "hello" ∧
    (match decryptPassport toyAEAD
        (encryptPassport toyAEAD (List.replicate 12 0)
          (toyCodec.stringify { data := [("a", "b")], expireAt := 42 }) "k1") "k1" with
      | .ok pt => toyCodec.parse pt
      | .error _ => none) = some { data := [("a", "b")], expireAt := 42 } :=
  ⟨(claimC5 toyAEAD toyCodec (List.replicate 12 0) (by decide) "hello" "k1"
      { data := [("a", "b")], expireAt := 42 }).1,
   (claimC5 toyAEAD toyCodec (List.replicate 12 0) (by decide) "hello" "k1"
      { data := [("a", "b")], expireAt := 42 }).2⟩

/-- Loading a cookie encrypted under a key that occurs anywhere in the key
list restores its (non-expired) envelope: keys ahead of it fail
authenticated decryption and the loop advances; the matching key decrypts,
parses and is accepted. -/
theorem load_mem_key (A : AEADModel) (C : CodecModel) (env : Envelope) (iv : List Byte)
    (h12 : iv.length = 12) (kOld : String) (now tmo : Nat) (htmo : 0 < tmo)
    (hfresh : ¬ now > env.expireAt) :
    ∀ ks : List String, kOld ∈ ks →
      loadSession C tmo (defaultDecrypt A) now
        (encryptPassport A iv (C.stringify env) kOld) ks = some env := by
  intro ks
  induction ks with
  | nil => intro h; exact absurd h (List.not_mem_nil kOld)
  | cons k ks ih =>
    intro hmem
    unfold loadSession
    rw [List.map_cons]
    by_cases hk : k = kOld
    · subst hk
      have hdec : (withTimeoutP "Decryption" tmo
          (defaultDecrypt A (encryptPassport A iv (C.stringify env) k) k)).2
          = .ok (C.stringify env) := by
        unfold defaultDecrypt withTimeoutP
        simp [htmo, decryptPassport_encryptPassport A iv h12]
      rw [hdec]
      exact decryptLoop_accept (C.parse_stringify env) hfresh _
    · have hdec : (withTimeoutP "Decryption" tmo
          (defaultDecrypt A (encryptPassport A iv (C.stringify env) kOld) k)).2
          = .error "decryption failed" := by
        unfold defaultDecrypt withTimeoutP
        simp [htmo,
          decryptPassport_wrong_key A iv h12 (C.stringify env) kOld k (fun he => hk he.symm)]
      rw [hdec]
      rw [decryptLoop]
      have hmem' : kOld ∈ ks := by
        rcases List.mem_cons.mp hmem with h | h
        · exact absurd h.symm hk
        · exact h
      have h2 := ih hmem'
      unfold loadSession at h2
      exact h2

/-- C6: a non-expired cookie encrypted under `keys[i]` is still restored when
loaded under any key list formed by prepending new keys, as long as the old
key is present; and the rotation loop short-circuits: the first accepted
attempt determines the result regardless of the remaining attempts. -/
theorem claimC6 (A : AEADModel) (C : CodecModel) (newKeys keys : List String) (i : Nat)
    (hi : i < keys.length) (env : Envelope) (iv : List Byte) (h12 : iv.length = 12)
    (now tmo : Nat) (htmo : 0 < tmo) (hfresh : now ≤ env.expireAt) :
    loadSession C tmo (defaultDecrypt A) now
      (encryptPassport A iv (C.stringify env) (keys.get ⟨i, hi⟩)) (newKeys ++ keys)
      = some env ∧
    ∀ (pt : String) (env' : Envelope) (rest : List (Except String String)),
      C.parse pt = some env' → now ≤ env'.expireAt →
      decryptLoop now C.parse (.ok pt :: rest) = some env' := by
  constructor
  · exact load_mem_key A C env iv h12 _ now tmo htmo (by omega) _
      (List.mem_append_right newKeys (keys.get_mem i hi))
  · intro pt env' rest hp hx
    exact decryptLoop_accept hp (by omega) rest

/-- C6 witness: a cookie encrypted under the old key `keys[1] = "kOld"` is
restored after prepending `"kNew"`, through the concrete AEAD and codec. -/
theorem claimC6_witness :
    loadSession toyCodec 1000 (defaultDecrypt toyAEAD) 100
      (encryptPassport toyAEAD (List.replicate 12 0)
        (toyCodec.stringify { data := [("user", "bob")], expireAt := 500 })
        (["kMid", "kOld"].get ⟨1, by decide⟩))
      (["kNew"] ++ ["kMid", "kOld"])
      = some { data := [("user", "bob")], expireAt := 500 } :=
  (claimC6 toyAEAD toyCodec ["kNew"] ["kMid", "kOld"] 1 (by decide)
    { data := [("user", "bob")], expireAt := 500 } (List.replicate 12 0) (by decide)
    100 1000 (by decide) (by decide)).1

/-- C8: if for every key the guarded decrypt attempt fails — the decrypt
behaviour rejects or times out, or the recovered plaintext is unparsable
(corrupted base64, tampered tag and non-JSON plaintext all land here) —
then the session load completes with the empty session; being a total
function of the attempt outcomes, it never surfaces a failure. -/
theorem claimC8 (C : CodecModel) (tmo : Nat)
    (dec : String → String → Option (Nat × Except String String))
    (now : Nat) (cv : String) (keys : List String)
    (hall : ∀ k ∈ keys,
      attemptFailsB C.parse ((withTimeoutP "Decryption" tmo (dec cv k)).2) = true) :
    loadSession C tmo dec now cv keys = none := by
  unfold loadSession
  apply decryptLoop_all_fail
  intro o ho
  rcases List.mem_map.mp ho with ⟨k, hk, rfl⟩
  exact hall k hk

/-- C8 witness: a cookie value that is not valid base64 fails the default
decrypt under every configured key and the load yields the empty session. -/
theorem claimC8_witness :
    loadSession toyCodec 5 (defaultDecrypt toyAEAD) 0 "%%%" ["k1", "k2"] = none :=
  claimC8 toyCodec 5 (defaultDecrypt toyAEAD) 0 "%%%" ["k1", "k2"] (by decide)

/-- C2: decrypt and encrypt run under the promise Timeout Guard
(src/unnamed/part_002 lines 77 and 116).  A never-settling operation makes
the guard settle with the timeout rejection at exactly the configured
duration; a timed-out decrypt attempt advances rotation to the next key; a
load whose decrypt never settles for any key completes with the empty
session instead of blocking; and a save whose encrypt never settles fails
with the timeout error. -/
theorem claimC2 (C : CodecModel) (tmo : Nat) (mode : String) (now : Nat) (cv : String)
    (keys : List String) (rest : List (Except String String))
    (signingKey name : String) (opts : CookieOptions) (maxCookieSize : Nat)
    (st : SessState) (p : List (String × String))
    (hp : st.passport = some p) (hne : p ≠ []) :
    withTimeoutP mode tmo none = (tmo, .error (timeoutErrMsg mode tmo)) ∧
    decryptLoop now C.parse ((withTimeoutP "Decryption" tmo none).2 :: rest)
      = decryptLoop now C.parse rest ∧
    loadSession C tmo (fun _ _ => none) now cv keys = none ∧
    (save C tmo (fun _ _ => none) signingKey name opts maxCookieSize now st).1
      = .errEncrypt (timeoutErrMsg "Encryption" tmo) := by
  have hie : p.isEmpty = false := by
    cases p with
    | nil => exact absurd rfl hne
    | cons a l => rfl
  refine ⟨rfl, rfl, ?_, ?_⟩
  · unfold loadSession
    apply decryptLoop_all_fail
    intro o ho
    rcases List.mem_map.mp ho with ⟨k, _, rfl⟩
    rfl
  · unfold save
    rw [hp]
    simp [hie, withTimeoutP]

/-- C2 witness: the guard, loop, load and save conclusions at concrete
inputs, with a two-key list and a nonempty passport payload. -/
theorem claimC2_witness :
    withTimeoutP "Decryption" 3000 none
      = (3000, .error (timeoutErrMsg "Decryption" 3000)) ∧
    decryptLoop 7 toyCodec.parse ((withTimeoutP "Decryption" 3000 none).2 :: [])
      = decryptLoop 7 toyCodec.parse [] ∧
    loadSession toyCodec 3000 (fun _ _ => none) 7 "cookie" ["a", "b"] = none ∧
    (save toyCodec 3000 (fun _ _ => none) "k" "session" optsEx 4096 7
        { passport := some [("u", "v")], internalExpireAt := none }).1
      = .errEncrypt (timeoutErrMsg "Encryption" 3000) := by
  have h := claimC2 toyCodec 3000 "Decryption" 7 "cookie" ["a", "b"] []
    "k" "session" optsEx 4096
    { passport := some [("u", "v")], internalExpireAt := none } [("u", "v")]
    rfl (by decide)
  exact h

/-- C3: `save` on a session with no meaningful payload (`passport` absent or
empty) emits the deletion cookie — empty value, `expires = new Date(0)`,
which is in the past for any positive clock — leaves the session state
untouched, and never consults the encrypt provider (the outcome is the
same for every encrypt behaviour). -/
theorem claimC3 (C : CodecModel) (tmo : Nat)
    (enc enc' : String → String → Option (Nat × Except String String))
    (signingKey name : String) (opts : CookieOptions) (maxCookieSize now : Nat)
    (st : SessState) (hempty : st.passport = none ∨ st.passport = some []) :
    save C tmo enc signingKey name opts maxCookieSize now st
      = (.set { name := name, value := "", expires := 0, opts := opts }, st) ∧
    save C tmo enc signingKey name opts maxCookieSize now st
      = save C tmo enc' signingKey name opts maxCookieSize now st ∧
    (0 < now →
      ({ name := name, value := "", expires := 0, opts := opts } : SetCookieHeader).expires
        < now) := by
  have hmain : ∀ e : String → String → Option (Nat × Except String String),
      save C tmo e signingKey name opts maxCookieSize now st
        = (.set { name := name, value := "", expires := 0, opts := opts }, st) := by
    intro e
    unfold save
    rcases hempty with h | h <;> rw [h] <;> rfl
  exact ⟨hmain enc, (hmain enc).trans (hmain enc').symm, fun h => h⟩

/-- C3 witness: the deletion cookie for the freshly-loaded empty session and
for a present-but-empty passport, under two different encrypt behaviours. -/
theorem claimC3_witness :
    save toyCodec 3000 encEx "k" "session" optsEx 4096 123
        { passport := none, internalExpireAt := none }
      = (.set { name := "session", value := "", expires := 0, opts := optsEx },
         { passport := none, internalExpireAt := none }) ∧
    save toyCodec 3000 encEx "k" "session" optsEx 4096 123
        { passport := none, internalExpireAt := none }
      = save toyCodec 3000 (fun _ _ => none) "k" "session" optsEx 4096 123
          { passport := none, internalExpireAt := none } ∧
    (0 < (123 : Nat) →
      ({ name := "session", value := "", expires := 0, opts := optsEx }
        : SetCookieHeader).expires < 123) :=
  claimC3 toyCodec 3000 encEx (fun _ _ => none) "k" "session" optsEx 4096 123
    { passport := none, internalExpireAt := none } (Or.inl rfl)

/-- C7: when the percent-encoded byte size of the ciphertext exceeds
`maxCookieSize`, `save` completes with the size error and emits no
`Set-Cookie` header; when it fits, the header carrying exactly that
ciphertext is emitted — the measured quantity is `cookieSize`, the byte
length of the percent-encoded form, not the raw ciphertext length. -/
theorem claimC7 (C : CodecModel) (tmo : Nat)
    (enc : String → String → Option (Nat × Except String String))
    (signingKey name : String) (opts : CookieOptions) (maxCookieSize now : Nat)
    (st : SessState) (p : List (String × String)) (ct : String)
    (hp : st.passport = some p) (hne : p ≠ [])
    (henc : (withTimeoutP "Encryption" tmo (enc (C.stringify
        { data := p, expireAt := st.internalExpireAt.getD (now + opts.maxAge * 1000) })
        signingKey)).2 = .ok ct) :
    (cookieSize ct > maxCookieSize →
      save C tmo enc signingKey name opts maxCookieSize now st
        = (.errTooLarge (cookieSize ct) maxCookieSize,
           { passport := st.passport,
             internalExpireAt := some (st.internalExpireAt.getD (now + opts.maxAge * 1000)) })) ∧
    (cookieSize ct ≤ maxCookieSize →
      (save C tmo enc signingKey name opts maxCookieSize now st).1
        = .set { name := name, value := ct,
                 expires := st.internalExpireAt.getD (now + opts.maxAge * 1000),
                 opts := opts }) := by
  have hie : p.isEmpty = false := by
    cases p with
    | nil => exact absurd rfl hne
    | cons a l => rfl
  constructor
  · intro hbig
    unfold save
    rw [hp]
    simp only [hie, Option.getD_some, ite_false, Bool.false_eq_true]
    rw [henc]
    simp [hbig]
  · intro hsmall
    unfold save
    rw [hp]
    simp only [hie, Option.getD_some, ite_false, Bool.false_eq_true]
    rw [henc]
    simp [Nat.not_lt.mpr hsmall]

/-- C7 witness: with ciphertext `"a+b/c"` the raw length 5 fits the budget 8
but the percent-encoded form `"a%2Bb%2Fc"` has 9 bytes, so the save fails
with the size error and no header — the size is measured on the encoded
form, not the raw ciphertext. -/
theorem claimC7_witness :
    ("a+b/c".length ≤ 8 ∧ cookieSize "a+b/c" > 8) ∧
    save toyCodec 5 (fun _ _ => some (0, .ok "a+b/c")) "k1" "session" optsEx 8 100
        { passport := some [("u", "v")], internalExpireAt := some 1000 }
      = (.errTooLarge (cookieSize "a+b/c") 8,
         { passport := some [("u", "v")], internalExpireAt := some 1000 }) :=
  ⟨⟨by decide, by decide⟩,
   (claimC7 toyCodec 5 (fun _ _ => some (0, .ok "a+b/c")) "k1" "session" optsEx 8 100
      { passport := some [("u", "v")], internalExpireAt := some 1000 }
      [("u", "v")] "a+b/c" rfl (by decide) rfl).1 (by decide)⟩

/-- Once `internalExpireAt` is cached, every further save in the request
reuses it: each emitted header's `expires` equals the cached value, and the
cache and passport survive every save. -/
theorem saveSeq_fixed_expiry (C : CodecModel) (tmo : Nat)
    (enc : String → String → Option (Nat × Except String String))
    (signingKey name : String) (opts : CookieOptions) (maxCookieSize : Nat)
    (e0 : Nat) (p : List (String × String)) (hne : p ≠ []) :
    ∀ (ts : List Nat) (st : SessState), st.passport = some p →
      st.internalExpireAt = some e0 →
      ∀ x ∈ emittedExpires
          (saveSeq C tmo enc signingKey name opts maxCookieSize st ts).1,
        x = e0 := by
  intro ts
  induction ts with
  | nil =>
    intro st hp hie x hx
    simp [saveSeq, emittedExpires] at hx
  | cons t ts ih =>
    intro st hp hie x hx
    rw [saveSeq] at hx
    have hspec := save_nonempty_spec C tmo enc signingKey name opts maxCookieSize t st p
      hp hne
    have hp' : (save C tmo enc signingKey name opts maxCookieSize t st).2.passport
        = some p := by
      rw [hspec.1]
      exact hp
    have hie' :
        (save C tmo enc signingKey name opts maxCookieSize t st).2.internalExpireAt
        = some e0 := by
      rw [hspec.1]
      simp [hie]
    cases ho : (save C tmo enc signingKey name opts maxCookieSize t st).1 with
    | set h =>
      simp only [emittedExpires, List.filterMap_cons, ho] at hx
      rcases List.mem_cons.mp hx with hx1 | hx2
      · have h2 := hspec.2 h ho
        rw [hie] at h2
        simp only [Option.getD_some] at h2
        rw [hx1, h2]
      · exact ih _ hp' hie' x hx2
    | errEncrypt msg =>
      simp only [emittedExpires, List.filterMap_cons, ho] at hx
      exact ih _ hp' hie' x hx
    | errTooLarge a b =>
      simp only [emittedExpires, List.filterMap_cons, ho] at hx
      exact ih _ hp' hie' x hx

/-- C9: the absolute expiry is computed at most once per session lifetime —
a loaded envelope installs it (`stateAfterLoad`), and otherwise the first
save fixes it at `now + maxAge*1000`; every cookie emitted by any sequence
of saves in the request carries that same `expires`, so repeated saves
never extend the lifetime beyond the original window. -/
theorem claimC9 (C : CodecModel) (tmo : Nat)
    (enc : String → String → Option (Nat × Except String String))
    (signingKey name : String) (opts : CookieOptions) (maxCookieSize : Nat)
    (st : SessState) (p : List (String × String))
    (hp : st.passport = some p) (hne : p ≠ []) (t : Nat) (ts : List Nat) :
    (∀ env, (stateAfterLoad (some env)).internalExpireAt = some env.expireAt) ∧
    ∀ x ∈ emittedExpires
        (saveSeq C tmo enc signingKey name opts maxCookieSize st (t :: ts)).1,
      x = st.internalExpireAt.getD (t + opts.maxAge * 1000) := by
  refine ⟨fun env => rfl, ?_⟩
  intro x hx
  rw [saveSeq] at hx
  have hspec := save_nonempty_spec C tmo enc signingKey name opts maxCookieSize t st p
    hp hne
  have hp' : (save C tmo enc signingKey name opts maxCookieSize t st).2.passport
      = some p := by
    rw [hspec.1]
    exact hp
  have hie' :
      (save C tmo enc signingKey name opts maxCookieSize t st).2.internalExpireAt
      = some (st.internalExpireAt.getD (t + opts.maxAge * 1000)) := by
    rw [hspec.1]
  cases ho : (save C tmo enc signingKey name opts maxCookieSize t st).1 with
  | set h =>
    simp only [emittedExpires, List.filterMap_cons, ho] at hx
    rcases List.mem_cons.mp hx with hx1 | hx2
    · rw [hx1]
      exact hspec.2 h ho
    · exact saveSeq_fixed_expiry C tmo enc signingKey name opts maxCookieSize _ p hne
        ts _ hp' hie' x hx2
  | errEncrypt msg =>
    simp only [emittedExpires, List.filterMap_cons, ho] at hx
    exact saveSeq_fixed_expiry C tmo enc signingKey name opts maxCookieSize _ p hne
      ts _ hp' hie' x hx
  | errTooLarge a b =>
    simp only [emittedExpires, List.filterMap_cons, ho] at hx
    exact saveSeq_fixed_expiry C tmo enc signingKey name opts maxCookieSize _ p hne
      ts _ hp' hie' x hx

/-- C9 witness: a session restored with `expireAt = 777` saved three times at
clock readings 100, 200 and 999999 emits three cookies all expiring at 777
(the cached value, not recomputed from the later clocks). -/
theorem claimC9_witness :
    emittedExpires
        (saveSeq toyCodec 5 encEx "k" "session" optsEx 100000 stEx [100, 200, 999999]).1
      = [777, 777, 777] ∧
    (777 : Nat) = stEx.internalExpireAt.getD (100 + optsEx.maxAge * 1000) :=
  ⟨by decide,
   (claimC9 toyCodec 5 encEx "k" "session" optsEx 100000 stEx [("x", "y")] rfl
      (by decide) 100 [200, 999999]).2 777 (by decide)⟩

/-- C10: in the flat variant, after a successful restore the session's
`cookie` property is exactly the transport metadata derived from the
configured cookie options with `_expires` set from the envelope's
`expireAt` — even when the decrypted envelope's data itself contains a
`cookie` field (of any value), because the transport metadata is written
after spreading the envelope data. -/
theorem claimC10 (opts : CookieOptions) (envData : List (String × JsVal))
    (expireAt : Nat) (v : JsVal) :
    objGet (flatRestoreSession opts envData expireAt) "cookie"
      = some (.jobj (objSet (flatInitialCookieMeta opts) "_expires" (.jnum expireAt))) ∧
    objGet (flatRestoreSession opts (objSet envData "cookie" v) expireAt) "cookie"
      = some (.jobj (objSet (flatInitialCookieMeta opts) "_expires" (.jnum expireAt))) :=
  ⟨objGet_objSet envData "cookie" _, objGet_objSet (objSet envData "cookie" v) "cookie" _⟩

end PCS
